import Mathlib

/-!
Verification of the OCR extraction pipeline (ocr-go-prototype).

Shallow embedding of the repository's pure core:
* `utils/validator.go` — `CleanJSONResponse`, `ParseAndValidateJSON` (clean step),
  `ValidateOCRResult`, the `ValidDocumentTypes` / `ValidColorModes` sets;
* `prompt/ocr_prompt.go` — `BuildOCRPrompt`;
* `ocr.go` — `buildOCRResult`, `buildMetadata`, `buildText`, `buildStructuredData`,
  `buildSummary`;
* `engine/vision_engine.go` — `Process` (retry loop), `mergeResults`;
* `utils/image.go` — `GetImageInfo` (image decoding abstracted as an oracle).

Go strings are modelled as `List Char`; Go `float64` fields that are only copied
and compared (never arithmetically combined) are modelled as `Rat`; Go `nil`
pointers, `nil` maps and `nil` slices (where the code distinguishes them from
empty) are modelled as `Option`.
-/

set_option maxRecDepth 100000

namespace OcrProto

/-- Character class used by Go's `strings.TrimSpace` (`unicode.IsSpace`):
the Unicode White_Space property — TAB, LF, VT, FF, CR, SPACE, NEL, NBSP,
OGHAM SPACE MARK, U+2000–U+200A, LINE/PARAGRAPH SEPARATOR, NARROW NBSP,
MEDIUM MATHEMATICAL SPACE and IDEOGRAPHIC SPACE. -/
def goIsSpace (c : Char) : Bool :=
  c = ' ' ∨ c = '\t' ∨ c = '\n' ∨ c = (Char.ofNat 11) ∨ c = (Char.ofNat 12) ∨
    c = '\r' ∨ c = (Char.ofNat 133) ∨ c = (Char.ofNat 160) ∨
    c = (Char.ofNat 0x1680) ∨ (0x2000 ≤ c.toNat ∧ c.toNat ≤ 0x200A) ∨
    c = (Char.ofNat 0x2028) ∨ c = (Char.ofNat 0x2029) ∨ c = (Char.ofNat 0x202F) ∨
    c = (Char.ofNat 0x205F) ∨ c = (Char.ofNat 0x3000)

/-- Leading-whitespace removal (the left half of Go `strings.TrimSpace`). -/
def trimLeftSpace (s : List Char) : List Char :=
  s.dropWhile goIsSpace

/-- Trailing-whitespace removal (the right half of Go `strings.TrimSpace`). -/
def trimRightSpace (s : List Char) : List Char :=
  (s.reverse.dropWhile goIsSpace).reverse

/-- Go `strings.TrimSpace`: drop whitespace from both ends. -/
def goTrimSpace (s : List Char) : List Char :=
  trimRightSpace (trimLeftSpace s)

/-- Go `strings.HasPrefix`. -/
def goHasPre (pre s : List Char) : Bool :=
  pre.isPrefixOf s

/-- Go `strings.HasSuffix`. -/
def goHasSuf (suf s : List Char) : Bool :=
  suf.isSuffixOf s

/-- Go `strings.TrimPrefix`: remove `pre` from the front when present. -/
def goTrimPre (pre s : List Char) : List Char :=
  if goHasPre pre s then s.drop pre.length else s

/-- Go `strings.TrimSuffix`: remove `suf` from the back when present. -/
def goTrimSuf (suf s : List Char) : List Char :=
  if goHasSuf suf s then s.take (s.length - suf.length) else s

/-- Go `strings.Index(s, "{")` specialised to a single character: index of the
first occurrence, `none` standing for Go's `-1`. -/
def goIndexChar (s : List Char) (c : Char) : Option Nat :=
  s.findIdx? (fun d => d = c)

/-- Go `strings.LastIndex(s, "}")` specialised to a single character. -/
def goLastIndexChar (s : List Char) (c : Char) : Option Nat :=
  match goIndexChar s.reverse c with
  | none => none
  | some i => some (s.length - 1 - i)

/-- The three-backtick fence marker. -/
def fenceMarker : List Char :=
  ("```").data

/-- The `json`-tagged fence opener. -/
def fenceMarkerJson : List Char :=
  ("```json").data

/-- `utils/validator.go` `CleanJSONResponse`, stage 1: trim whitespace, strip a
leading markdown fence (tagged or plain) and a trailing fence, trim again.
This is the string on which brace extraction is then attempted. -/
def preClean (raw : List Char) : List Char :=
  let s := goTrimSpace raw
  let s :=
    if goHasPre fenceMarkerJson s then goTrimPre fenceMarkerJson s
    else if goHasPre fenceMarker s then goTrimPre fenceMarker s
    else s
  let s := goTrimSuf fenceMarker s
  goTrimSpace s

/-- `utils/validator.go` `CleanJSONResponse`: after `preClean`, extract the
substring from the first `\x7b` to the last `\x7d` when the latter occurs
strictly after the former; otherwise return the cleaned string unchanged. -/
def cleanJSONResponse (raw : List Char) : List Char :=
  let s := preClean raw
  match goIndexChar s '{', goLastIndexChar s '}' with
  | some st, some en => if st < en then (s.drop st).take (en + 1 - st) else s
  | some _, none => s
  | none, _ => s

/-- The markdown-fence wrapping of a reply used by the round-trip property
(the form produced by a model that fences its JSON, and the form exercised by
`TestParseAndValidateJSON_WithMarkdownFences`). -/
def wrapJsonFence (r : List Char) : List Char :=
  ("```json\n").data ++ r ++ ("\n```").data

/-! ## Prompt builder (`prompt/ocr_prompt.go`) -/

/-- `prompt/ocr_prompt.go` `PromptConfig`: the five feature flags controlling
what the prompt asks the model to extract. -/
structure PromptConfig where
  withSummary : Bool
  withLanguageDetection : Bool
  withStructuredExtraction : Bool
  withBoundingBoxes : Bool
  withConfidenceScores : Bool
deriving DecidableEq

/-- First `sb.WriteString` block of `BuildOCRPrompt`. -/
def pHeader : List Char :=
  ("You are a precise OCR engine. Analyze the provided image and extract all text content.\n\nCRITICAL INSTRUCTIONS:\n- Respond ONLY with valid JSON.\n- No markdown. No code fences. No explanations. No comments.\n- Do NOT wrap the JSON in backticks or any markup.\n- Output MUST start with \x7b and end with \x7d\n- Every string value must be properly escaped.\n\nYou must return a JSON object with EXACTLY this structure:\n\n\x7b\n  \"metadata\": \x7b\n    \"language\": ").data

/-- Language slot when `WithLanguageDetection` is on. -/
def pLangOn : List Char :=
  ("\"<detected ISO 639-1 language code or null if unknown>\",").data

/-- Language slot when `WithLanguageDetection` is off. -/
def pLangOff : List Char :=
  ("null,").data

/-- Schema block from `document_type` through the start of a text line. -/
def pTextSchema : List Char :=
  ("\n    \"document_type\": \"<one of: invoice, receipt, id_card, contract, unknown>\",\n    \"confidence_score\": <float between 0.0 and 1.0 representing overall OCR confidence>\n  \x7d,\n  \"text\": \x7b\n    \"raw\": \"<all extracted text as a single string, preserving line breaks with \\\\n>\",\n    \"lines\": [\n      \x7b\n        \"text\": \"<text content of this line>\",").data

/-- Bounding-box slot when `WithBoundingBoxes` is on. -/
def pBoxOn : List Char :=
  ("\n        \"bounding_box\": \x7b\n          \"x\": <estimated x coordinate>,\n          \"y\": <estimated y coordinate>,\n          \"width\": <estimated width>,\n          \"height\": <estimated height>\n        \x7d,").data

/-- Bounding-box slot when `WithBoundingBoxes` is off. -/
def pBoxOff : List Char :=
  ("\n        \"bounding_box\": null,").data

/-- Confidence slot when `WithConfidenceScores` is on. -/
def pConfOn : List Char :=
  ("\n        \"confidence\": <float between 0.0 and 1.0>").data

/-- Confidence slot when `WithConfidenceScores` is off. -/
def pConfOff : List Char :=
  ("\n        \"confidence\": 0.0").data

/-- Closing of the `lines` array and `text` object. -/
def pLinesClose : List Char :=
  ("\n      \x7d\n    ]\n  \x7d,").data

/-- Structured-data slot when `WithStructuredExtraction` is on. -/
def pStructOn : List Char :=
  ("\n  \"structured_data\": \x7b\n    \"key_value_pairs\": \x7b\n      \"<key>\": \"<value>\"\n    \x7d,\n    \"tables\": [\n      \x7b\n        \"headers\": [\"<column header 1>\", \"<column header 2>\"],\n        \"rows\": [[\"<cell 1>\", \"<cell 2>\"]]\n      \x7d\n    ]\n  \x7d,").data

/-- Structured-data slot when `WithStructuredExtraction` is off. -/
def pStructOff : List Char :=
  ("\n  \"structured_data\": \x7b\n    \"key_value_pairs\": \x7b\x7d,\n    \"tables\": []\n  \x7d,").data

/-- Summary slot when `WithSummary` is on. -/
def pSumOn : List Char :=
  ("\n  \"summary\": \"<brief natural language summary of the document content>\"").data

/-- Summary slot when `WithSummary` is off. -/
def pSumOff : List Char :=
  ("\n  \"summary\": null").data

/-- Fixed RULES block (rules 1-5). -/
def pRules : List Char :=
  ("\n\x7d\n\nRULES:\n1. Extract ALL visible text from the image, missing nothing.\n2. \"document_type\" MUST be exactly one of: \"invoice\", \"receipt\", \"id_card\", \"contract\", \"unknown\".\n3. If no tables are found, return \"tables\": [].\n4. If no key-value pairs are found, return \"key_value_pairs\": \x7b\x7d.\n5. \"lines\" must contain every line of text found, even if only one.").data

/-- Rule 6, appended when `WithBoundingBoxes` is on. -/
def pRuleSix : List Char :=
  ("\n6. Estimate bounding boxes as best as possible based on text position in the image.").data

/-- Rule 7, appended when `WithLanguageDetection` is on. -/
def pRuleSeven : List Char :=
  ("\n7. Detect the primary language of the document and use ISO 639-1 codes (e.g., \"en\", \"fr\", \"de\").").data

/-- Closing reminder. -/
def pFooter : List Char :=
  ("\n\nRemember: Output ONLY the JSON object. Nothing else.").data

/-- The sequence of `sb.WriteString` calls of `BuildOCRPrompt`, in order. -/
def promptParts (cfg : PromptConfig) : List (List Char) :=
  [pHeader,
   if cfg.withLanguageDetection then pLangOn else pLangOff,
   pTextSchema,
   if cfg.withBoundingBoxes then pBoxOn else pBoxOff,
   if cfg.withConfidenceScores then pConfOn else pConfOff,
   pLinesClose,
   if cfg.withStructuredExtraction then pStructOn else pStructOff,
   if cfg.withSummary then pSumOn else pSumOff,
   pRules,
   if cfg.withBoundingBoxes then pRuleSix else [],
   if cfg.withLanguageDetection then pRuleSeven else [],
   pFooter]

/-- `prompt/ocr_prompt.go` `BuildOCRPrompt`: concatenation of the builder's
writes. Total over all 32 flag combinations by construction. -/
def buildOCRPrompt (cfg : PromptConfig) : List Char :=
  (promptParts cfg).flatten

/-! ## Data model (`models/output.go`)

Go `float64` values are only ever copied, zeroed and compared in the code
under verification, never combined arithmetically, so they are modelled as
`Rat`. Go pointers, `nil` maps and `nil` slices are `Option` where the code
distinguishes `nil` from empty. Go maps are association lists built by Go map
assignment (`mapSet`). -/

/-- `models.BoundingBox`. -/
structure BoundingBox where
  x : Rat
  y : Rat
  width : Rat
  height : Rat
deriving DecidableEq

/-- `models.Table`. -/
structure Table where
  headers : List String
  rows : List (List String)
deriving DecidableEq

/-- `models.Source` (`Type` is the `SourceType` string enum). -/
structure Source where
  type : String
  path : String
  checksum : String
deriving DecidableEq

/-- `models.ImageInfo` (`ColorMode` is a string enum). -/
structure ImageInfo where
  width : Int
  height : Int
  dpi : Option Int
  colorMode : String
deriving DecidableEq

/-- `models.Metadata` (`DocumentType` is a string enum). -/
structure Metadata where
  language : Option String
  documentType : String
  confidenceScore : Rat
deriving DecidableEq

/-- `models.TextLine`. -/
structure TextLine where
  text : String
  boundingBox : Option BoundingBox
  confidence : Rat
deriving DecidableEq

/-- `models.TextResult`. -/
structure TextResult where
  raw : String
  lines : List TextLine
deriving DecidableEq

/-- `models.StructuredData`. The map and slice are `Option` because
`ValidateOCRResult` distinguishes `nil` from empty. -/
structure StructuredData where
  keyValuePairs : Option (List (String × String))
  tables : Option (List Table)
deriving DecidableEq

/-- `models.OCRResult`: the strict top-level output. -/
structure OCRResult where
  source : Source
  image : ImageInfo
  metadata : Metadata
  text : TextResult
  structuredData : StructuredData
  summary : Option String
deriving DecidableEq

/-- `models.OllamaMetadata` (forgiving). -/
structure OllamaMetadata where
  language : Option String
  documentType : String
  confidenceScore : Rat
deriving DecidableEq

/-- `models.OllamaTextLine` (forgiving). -/
structure OllamaTextLine where
  text : String
  boundingBox : Option BoundingBox
  confidence : Rat
deriving DecidableEq

/-- `models.OllamaTextResult` (forgiving). -/
structure OllamaTextResult where
  raw : String
  lines : List OllamaTextLine
deriving DecidableEq

/-- `models.OllamaStructuredData` (forgiving; map and slice may be Go `nil`). -/
structure OllamaStructuredData where
  keyValuePairs : Option (List (String × String))
  tables : Option (List Table)
deriving DecidableEq

/-- `models.OllamaImageInfo` (forgiving). -/
structure OllamaImageInfo where
  width : Int
  height : Int
  dpi : Option Int
  colorMode : String
deriving DecidableEq

/-- `models.OllamaVisionResponse`: forgiving intermediate parse target; every
section is a nilable pointer in Go. -/
structure OllamaVisionResponse where
  metadata : Option OllamaMetadata
  text : Option OllamaTextResult
  structuredData : Option OllamaStructuredData
  summary : Option String
  image : Option OllamaImageInfo
deriving DecidableEq

/-! ## Enums and validation sets (`models/output.go`, `utils/validator.go`) -/

/-- `models.DocumentTypeUnknown`. -/
def DocumentTypeUnknown : String := "unknown"

/-- `models.ColorModeUnknown`. -/
def ColorModeUnknown : String := "Unknown"

/-- `utils.ValidDocumentTypes`: the allowed document-type values (the Go map
has value `true` at exactly these keys). -/
def ValidDocumentTypes : List String :=
  ["invoice", "receipt", "id_card", "contract", "unknown"]

/-- `utils.ValidColorModes`: the allowed color-mode values. -/
def ValidColorModes : List String :=
  ["RGB", "Grayscale", "CMYK", "Unknown"]

/-! ## Go map operations

A Go `map[string]string` is modelled as an association list with distinct
keys; `mapSet` is Go map assignment `m[k] = v` (update in place, else add)
and `mapGet` is Go map lookup `m[k]`. -/

/-- Go map assignment `m[k] = v`: replace the binding when the key is
present, otherwise add it. -/
def mapSet : List (String × String) → String → String → List (String × String)
  | [], k, v => [(k, v)]
  | p :: rest, k, v => if p.1 = k then (k, v) :: rest else p :: mapSet rest k v

/-- Go map lookup `m[k]` (`none` = absent). -/
def mapGet : List (String × String) → String → Option String
  | [], _ => none
  | p :: rest, k => if p.1 = k then some p.2 else mapGet rest k

/-- Go map well-formedness: keys are distinct (every Go map satisfies this). -/
@[reducible] def mapWF (m : List (String × String)) : Prop :=
  (m.map (fun p => p.1)).Nodup

/-! ## Validator (`utils/validator.go` `ValidateOCRResult`) -/

/-- The per-line checks of `ValidateOCRResult`'s text-line loop: first
violation wins, mirroring the Go `for`/`return`. -/
def validateLines : List TextLine → Except String Unit
  | [] => .ok ()
  | line :: rest =>
    if line.text = "" then .error "text line has empty text"
    else if line.confidence < 0 ∨ line.confidence > 1 then
      .error "text line confidence out of range [0, 1]"
    else validateLines rest

/-- `utils.ValidateOCRResult`: sequential checks with early error return.
The Go argument is a pointer, hence the `Option`. -/
def ValidateOCRResult (result : Option OCRResult) : Except String Unit :=
  match result with
  | none => .error "result is nil"
  | some r =>
    if r.source.type ≠ "file" ∧ r.source.type ≠ "url" then
      .error "invalid source type"
    else if r.source.path = "" then .error "source path is empty"
    else if r.source.checksum = "" then .error "source checksum is empty"
    else if ¬ ValidDocumentTypes.contains r.metadata.documentType then
      .error "invalid document type"
    else if r.metadata.confidenceScore < 0 ∨ r.metadata.confidenceScore > 1 then
      .error "confidence_score out of range [0, 1]"
    else if ¬ ValidColorModes.contains r.image.colorMode then
      .error "invalid color mode"
    else
      match validateLines r.text.lines with
      | .error e => .error e
      | .ok () =>
        if r.structuredData.keyValuePairs = none then
          .error "structured_data.key_value_pairs is nil (should be empty map)"
        else if r.structuredData.tables = none then
          .error "structured_data.tables is nil (should be empty slice)"
        else .ok ()

/-! ## Configuration (`config.go`, `options.go`) -/

/-- `ocr.Config` (fields used by the result assembler; network/limit fields
kept for completeness). -/
structure Config where
  ollamaURL : String
  model : String
  timeout : Int
  temperature : Rat
  maxFileSize : Int
  withSummary : Bool
  withLanguageDetection : Bool
  withStructuredExtraction : Bool
  withBoundingBoxes : Bool
  withConfidenceScores : Bool
deriving DecidableEq

/-! ## Result assembly (`ocr.go`) -/

/-- `ocr.go` `buildMetadata`: defaults, then copy from the model's metadata
when present; the document type is filtered through `ValidDocumentTypes`. -/
def buildMetadata (resp : OllamaVisionResponse) : Metadata :=
  let md : Metadata :=
    { language := none, documentType := DocumentTypeUnknown, confidenceScore := 0 }
  match resp.metadata with
  | none => md
  | some m =>
    { language := m.language
      confidenceScore := m.confidenceScore
      documentType :=
        if ValidDocumentTypes.contains m.documentType then m.documentType
        else DocumentTypeUnknown }

/-- `ocr.go` `buildText`: copy raw text and lines; keep a line's bounding box
only when the flag is on and the model sent one; zero the confidence when the
confidence flag is off. -/
def buildText (resp : OllamaVisionResponse) (cfg : Config) : TextResult :=
  match resp.text with
  | none => { raw := "", lines := [] }
  | some t =>
    { raw := t.raw
      lines := t.lines.map (fun line =>
        { text := line.text
          boundingBox :=
            if cfg.withBoundingBoxes ∧ line.boundingBox ≠ none then line.boundingBox
            else none
          confidence := if cfg.withConfidenceScores then line.confidence else 0 }) }

/-- `ocr.go` `buildStructuredData`: empty map/slice unless structured
extraction is enabled and the model sent the section; Go `nil` map/slice from
the model are replaced by the empty defaults. -/
def buildStructuredData (resp : OllamaVisionResponse) (cfg : Config) : StructuredData :=
  let sd : StructuredData := { keyValuePairs := some [], tables := some [] }
  if ¬ cfg.withStructuredExtraction then sd
  else
    match resp.structuredData with
    | none => sd
    | some rsd =>
      { keyValuePairs :=
          match rsd.keyValuePairs with
          | none => sd.keyValuePairs
          | some kv => some kv
        tables :=
          match rsd.tables with
          | none => sd.tables
          | some ts => some ts }

/-- `ocr.go` `buildSummary`: `nil` when the summary flag is off. -/
def buildSummary (resp : OllamaVisionResponse) (cfg : Config) : Option String :=
  if ¬ cfg.withSummary then none else resp.summary

/-! ## Engine (`engine/vision_engine.go`) -/

/-- `engine.ProcessConfig`. -/
structure ProcessConfig where
  model : String
  temperature : Rat
  requestID : String
  withSummary : Bool
  withLanguageDetection : Bool
  withStructuredExtraction : Bool
  withBoundingBoxes : Bool
  withConfidenceScores : Bool
deriving DecidableEq

/-- `engine.ProcessResult`. Latency (`time.Duration`) is nanoseconds as `Int`. -/
structure ProcessResult where
  visionResponse : OllamaVisionResponse
  model : String
  promptTokens : Int
  evalTokens : Int
  latency : Int
deriving DecidableEq

/-- `client.GenerateRequest` (with `Options` inlined; `Stream`/`Format` are the
constants the engine sets). -/
structure GenerateRequest where
  model : String
  prompt : List Char
  images : List String
  stream : Bool
  format : String
  temperature : Rat
  numPredict : Int
deriving DecidableEq

/-- `client.GenerateResponse` (the fields the engine reads). -/
structure GenerateResponse where
  model : String
  response : List Char
  promptEvalCount : Int
  evalCount : Int
  totalDuration : Int
deriving DecidableEq

/-- The engine's failure modes in `Process`:
`generateFailed` = `"ollama generate (attempt %d): %w"` (transport error,
returned immediately); `allAttemptsFailed` = `"all attempts failed: %w"`
wrapping the last `"parse response (attempt %d): %w"` parse error. -/
inductive EngineError where
  | generateFailed (attempt : Nat) (err : String)
  | allAttemptsFailed (lastParseErr : Option (Nat × String))
deriving DecidableEq

/-- The `PromptConfig` the engine derives from its `ProcessConfig`. -/
def promptCfgOfProcess (cfg : ProcessConfig) : PromptConfig :=
  { withSummary := cfg.withSummary
    withLanguageDetection := cfg.withLanguageDetection
    withStructuredExtraction := cfg.withStructuredExtraction
    withBoundingBoxes := cfg.withBoundingBoxes
    withConfidenceScores := cfg.withConfidenceScores }

/-- The single `GenerateRequest` the engine builds before its retry loop
(`Format: "json"`, `NumPredict: 4096`); `base64Image` abstracts
`utils.EncodeBase64(imageData)`. -/
def engineRequest (cfg : ProcessConfig) (base64Image : String) : GenerateRequest :=
  { model := cfg.model
    prompt := buildOCRPrompt (promptCfgOfProcess cfg)
    images := [base64Image]
    stream := false
    format := "json"
    temperature := cfg.temperature
    numPredict := 4096 }

/-- Assembly of the successful `ProcessResult` from an Ollama reply (the
elapsed latency is an oracle, as wall-clock time is external). -/
def mkProcessResult (resp : GenerateResponse) (vr : OllamaVisionResponse)
    (elapsed : Int) : ProcessResult :=
  { visionResponse := vr
    model := resp.model
    promptTokens := resp.promptEvalCount
    evalTokens := resp.evalCount
    latency := elapsed }

/-- The retry loop of `engine.Process` (`for attempt := 0; attempt <= 1`):
`attempts` is the list of remaining loop indices, `lastErr` the threaded
parse error. `gen` abstracts the Ollama client call (transport may fail),
`parse` abstracts `utils.ParseAndValidateJSON` (clean + `json.Unmarshal`,
the unmarshalling being external library code). Returns the outcome and the
list of generation requests actually issued, in order. -/
def runAttempts (gen : Nat → GenerateRequest → Except String GenerateResponse)
    (parse : List Char → Except String OllamaVisionResponse)
    (req : GenerateRequest) (elapsed : Int) :
    List Nat → Option (Nat × String) → Except EngineError ProcessResult × List GenerateRequest
  | [], lastErr => (.error (.allAttemptsFailed lastErr), [])
  | a :: rest, _lastErr =>
    match gen a req with
    | .error e => (.error (.generateFailed a e), [req])
    | .ok resp =>
      match parse resp.response with
      | .ok vr => (.ok (mkProcessResult resp vr elapsed), [req])
      | .error pe =>
        let next := runAttempts gen parse req elapsed rest (some (a, pe))
        (next.1, req :: next.2)

/-- `engine.Process` for a single image: build the prompt and request once,
then run attempts `0` and `1`. -/
def engineProcess (gen : Nat → GenerateRequest → Except String GenerateResponse)
    (parse : List Char → Except String OllamaVisionResponse)
    (cfg : ProcessConfig) (base64Image : String) (elapsed : Int) :
    Except EngineError ProcessResult × List GenerateRequest :=
  runAttempts gen parse (engineRequest cfg base64Image) elapsed [0, 1] none

/-! ## Multi-page merge (`engine/vision_engine.go` `mergeResults`) -/

/-- Go `append` on a possibly-`nil` slice (`nil` + nothing stays `nil`, as in
the merged `Tables` which starts `nil`). -/
def goAppend (s : Option (List Table)) (xs : List Table) : Option (List Table) :=
  match s with
  | none => if xs.isEmpty then none else some xs
  | some l => some (l ++ xs)

/-- The merge loop's mutable state: the concrete structures `mergeResults`
allocates up front plus the `rawParts`/`totalLatency` locals. -/
structure MergeAcc where
  metadata : Option OllamaMetadata
  lines : List OllamaTextLine
  kvs : List (String × String)
  tables : Option (List Table)
  summary : Option String
  model : String
  promptTokens : Int
  evalTokens : Int
  rawParts : List String
  latency : Int
deriving DecidableEq

/-- One iteration of the `mergeResults` loop body for page `i` (0-based) with
result `r`. -/
def mergeStep (acc : MergeAcc) (ir : Nat × ProcessResult) : MergeAcc :=
  let i := ir.1
  let r := ir.2
  let acc :=
    { acc with
      latency := acc.latency + r.latency
      promptTokens := acc.promptTokens + r.promptTokens
      evalTokens := acc.evalTokens + r.evalTokens }
  let acc :=
    match r.visionResponse.text with
    | none => acc
    | some t =>
      { acc with
        rawParts := acc.rawParts ++ ["--- Page " ++ toString (i + 1) ++ " ---\n" ++ t.raw]
        lines := acc.lines ++ t.lines }
  let acc :=
    match r.visionResponse.structuredData with
    | none => acc
    | some sd =>
      { acc with
        kvs := (sd.keyValuePairs.getD []).foldl (fun m p => mapSet m p.1 p.2) acc.kvs
        tables := goAppend acc.tables (sd.tables.getD []) }
  match r.visionResponse.summary with
  | none => acc
  | some s => { acc with summary := some s }

/-- The initial `merged` allocation of `mergeResults`: metadata and model from
the first page, fresh empty text/map, `nil` tables, no summary. -/
def mergeAccInit (r₀ : ProcessResult) : MergeAcc :=
  { metadata := r₀.visionResponse.metadata
    lines := []
    kvs := []
    tables := none
    summary := none
    model := r₀.model
    promptTokens := 0
    evalTokens := 0
    rawParts := []
    latency := 0 }

/-- The final assembly of `mergeResults`: join the raw parts with newlines and
package the accumulated state (`strings.Join(rawParts, "\n")`). -/
def mergeAssemble (acc : MergeAcc) : ProcessResult :=
  { visionResponse :=
      { metadata := acc.metadata
        text := some { raw := String.intercalate "\n" acc.rawParts, lines := acc.lines }
        structuredData := some { keyValuePairs := some acc.kvs, tables := acc.tables }
        summary := acc.summary
        image := none }
    model := acc.model
    promptTokens := acc.promptTokens
    evalTokens := acc.evalTokens
    latency := acc.latency }

/-- `engine.mergeResults`: `nil` for no pages, identity for one page,
otherwise fold the loop body over the indexed pages and assemble. -/
def mergeResults : List ProcessResult → Option ProcessResult
  | [] => none
  | [r] => some r
  | r₀ :: r₁ :: rs =>
    some (mergeAssemble (((r₀ :: r₁ :: rs).enum).foldl mergeStep (mergeAccInit r₀)))

/-- A page's contribution of text lines (`nil` text contributes nothing). -/
def pageLines (r : ProcessResult) : List OllamaTextLine :=
  match r.visionResponse.text with
  | none => []
  | some t => t.lines

/-- A page's contribution of tables (`nil` structured data or `nil` slice
contributes nothing). -/
def pageTables (r : ProcessResult) : List Table :=
  match r.visionResponse.structuredData with
  | none => []
  | some sd => sd.tables.getD []

/-- A page's key-value entries. -/
def pageKVs (r : ProcessResult) : List (String × String) :=
  match r.visionResponse.structuredData with
  | none => []
  | some sd => sd.keyValuePairs.getD []

/-- Lookup of a key in a page's key-value map. -/
def pageGet (r : ProcessResult) (k : String) : Option String :=
  mapGet (pageKVs r) k

/-! ## Image metadata (`utils/image.go` `GetImageInfo`, `ocr.go` `buildOCRResult`) -/

/-- What `GetImageInfo` inspects about a decoded `image.Config`: whether the
color model is `color.YCbCrModel`, and the `%T` name of the model type. -/
structure DecodedConfig where
  width : Int
  height : Int
  colorModel : Option (Bool × String)
deriving DecidableEq

/-- Go `strings.Contains`. -/
def goContains (s sub : List Char) : Bool :=
  decide (sub <:+: s)

/-- Go `strings.ToLower` (ASCII suffices for the `".pdf"` comparison). -/
def goToLower (s : List Char) : List Char :=
  s.map Char.toLower

/-- `utils.GetImageInfo`: placeholder for PDFs, placeholder on decode failure,
otherwise dimensions from the decoded config and a color mode derived from
the color model (`YCbCr` → RGB, else by type-name substring). The actual
image decoding is an oracle (`decode`). -/
def getImageInfo (decode : Except String DecodedConfig) (ext : List Char) : ImageInfo :=
  if goToLower ext = (".pdf").data then
    { width := 0, height := 0, dpi := none, colorMode := ColorModeUnknown }
  else
    match decode with
    | .error _ => { width := 0, height := 0, dpi := none, colorMode := ColorModeUnknown }
    | .ok cfg =>
      let colorMode :=
        match cfg.colorModel with
        | none => ColorModeUnknown
        | some cm =>
          if cm.1 then "RGB"
          else if goContains cm.2.data ("RGBA").data ∨ goContains cm.2.data ("NRGBA").data then
            "RGB"
          else if goContains cm.2.data ("Gray").data then "Grayscale"
          else if goContains cm.2.data ("CMYK").data then "CMYK"
          else ColorModeUnknown
      { width := cfg.width, height := cfg.height, dpi := none, colorMode := colorMode }

/-- `ocr.go` `buildOCRResult`: assemble the strict result, then override image
info with model-supplied values where non-zero / non-empty / recognized. -/
def buildOCRResult (source : String) (sourceType : String) (checksum : String)
    (imageInfo : ImageInfo) (result : ProcessResult) (cfg : Config) : OCRResult :=
  let r : OCRResult :=
    { source := { type := sourceType, path := source, checksum := checksum }
      image := imageInfo
      metadata := buildMetadata result.visionResponse
      text := buildText result.visionResponse cfg
      structuredData := buildStructuredData result.visionResponse cfg
      summary := buildSummary result.visionResponse cfg }
  match result.visionResponse.image with
  | none => r
  | some vi =>
    let img := r.image
    let img := if vi.width > 0 then { img with width := vi.width } else img
    let img := if vi.height > 0 then { img with height := vi.height } else img
    let img :=
      match vi.dpi with
      | none => img
      | some d => { img with dpi := some d }
    let img :=
      if vi.colorMode ≠ "" then
        if ValidColorModes.contains vi.colorMode then { img with colorMode := vi.colorMode }
        else img
      else img
    { r with image := img }

/-! ## Concrete engine oracles used to exercise the retry theorem -/

/-- A concrete reply whose body is not JSON. -/
def respW : GenerateResponse :=
  { model := "llama3.2-vision"
    response := ("not json").data
    promptEvalCount := 1
    evalCount := 2
    totalDuration := 3 }

/-- A client oracle that always returns `respW`. -/
def genW : Nat → GenerateRequest → Except String GenerateResponse :=
  fun _ _ => .ok respW

/-- A parse oracle that always fails (as `json.Unmarshal` does on `not json`). -/
def parseW : List Char → Except String OllamaVisionResponse :=
  fun _ => .error "json unmarshal"

/-- A concrete `ProcessConfig`. -/
def procCfgW : ProcessConfig :=
  { model := "llama3.2-vision"
    temperature := 0
    requestID := "ocr-1"
    withSummary := false
    withLanguageDetection := false
    withStructuredExtraction := false
    withBoundingBoxes := false
    withConfidenceScores := false }

/-! ## Concrete pages used to exercise the merge theorems -/

/-- A concrete first page. -/
def pageA : ProcessResult :=
  { visionResponse :=
      { metadata := some { language := some "en", documentType := "invoice", confidenceScore := 1 }
        text := some { raw := "first raw", lines := [{ text := "l1", boundingBox := none, confidence := 1 }] }
        structuredData := some
          { keyValuePairs := some [("k", "a"), ("only", "x")]
            tables := some [{ headers := ["h"], rows := [["c"]] }] }
        summary := some "first summary"
        image := none }
    model := "m"
    promptTokens := 1
    evalTokens := 2
    latency := 3 }

/-- A concrete second page whose key `k` collides with `pageA` and which has
no summary. -/
def pageB : ProcessResult :=
  { visionResponse :=
      { metadata := some { language := some "fr", documentType := "receipt", confidenceScore := 0 }
        text := some { raw := "second raw", lines := [{ text := "l2", boundingBox := none, confidence := 0 }] }
        structuredData := some
          { keyValuePairs := some [("k", "b")]
            tables := some [{ headers := ["h2"], rows := [] }] }
        summary := none
        image := none }
    model := "m"
    promptTokens := 10
    evalTokens := 20
    latency := 30 }

/-- The merge of `pageA` and `pageB`. -/
def mergedAB : ProcessResult :=
  (mergeResults [pageA, pageB]).getD pageA

/-! ## Concrete values used to exercise the assembler theorems -/

/-- A vision response where the model supplies every optional section even
though it may have been told not to. -/
def respFull : OllamaVisionResponse :=
  { metadata := some { language := some "en", documentType := "invoice", confidenceScore := 1 }
    text := some
      { raw := "r"
        lines := [{ text := "t"
                    boundingBox := some { x := 1, y := 2, width := 3, height := 4 }
                    confidence := 1 }] }
    structuredData := some
      { keyValuePairs := some [("a", "b")], tables := some [{ headers := ["h"], rows := [] }] }
    summary := some "s"
    image := none }

/-- A configuration with every feature flag disabled. -/
def cfgAllOff : Config :=
  { ollamaURL := "http://localhost:11434"
    model := "llama3.2-vision"
    timeout := 120000000000
    temperature := 0
    maxFileSize := 52428800
    withSummary := false
    withLanguageDetection := false
    withStructuredExtraction := false
    withBoundingBoxes := false
    withConfidenceScores := false }

/-- A configuration with every feature flag enabled. -/
def cfgAllOn : Config :=
  { cfgAllOff with
    withSummary := true
    withLanguageDetection := true
    withStructuredExtraction := true
    withBoundingBoxes := true
    withConfidenceScores := true }

/-- Externally measured image info. -/
def imgInfoW : ImageInfo :=
  { width := 800, height := 600, dpi := none, colorMode := "RGB" }

/-- `respFull` packaged as an engine result. -/
def procResFull : ProcessResult :=
  { visionResponse := respFull, model := "m", promptTokens := 0, evalTokens := 0, latency := 0 }

/-- A vision response whose document confidence (2) and line confidence (3)
are out of range. -/
def respBadConf : OllamaVisionResponse :=
  { respFull with
    metadata := some { language := some "en", documentType := "invoice", confidenceScore := 2 }
    text := some { raw := "r", lines := [{ text := "t", boundingBox := none, confidence := 3 }] } }

/-- `respBadConf` packaged as an engine result. -/
def procResBadConf : ProcessResult :=
  { procResFull with visionResponse := respBadConf }

/-- A strict result that passes every validator check. -/
def okResultW : OCRResult :=
  { source := { type := "file", path := "/t.png", checksum := "abc" }
    image := { width := 1, height := 1, dpi := none, colorMode := "RGB" }
    metadata := { language := some "en", documentType := "invoice", confidenceScore := 1 }
    text := { raw := "x", lines := [{ text := "x", boundingBox := none, confidence := 1 }] }
    structuredData := { keyValuePairs := some [], tables := some [] }
    summary := none }

/-- A decode oracle reporting a YCbCr color model. -/
def decodeW : Except String DecodedConfig :=
  .ok { width := 800, height := 600, colorModel := some (true, "color.YCbCrModel") }

/-- A model-asserted image section with an unrecognized color mode. -/
def viW : OllamaImageInfo :=
  { width := 0, height := 0, dpi := none, colorMode := "WEIRD" }

/-- A vision response asserting an unrecognized color mode. -/
def respWithImage : OllamaVisionResponse :=
  { respFull with image := some viW }

/-- `respWithImage` packaged as an engine result. -/
def procResWithImage : ProcessResult :=
  { procResFull with visionResponse := respWithImage }

/-! # Theorems -/

theorem infix_of_part {cfg : PromptConfig} (x : List Char) {n : List Char}
    (hx : x ∈ promptParts cfg) (h : n <:+: x) : n <:+: buildOCRPrompt cfg :=
  h.trans (List.infix_of_mem_flatten hx)

theorem mem_of_part {cfg : PromptConfig} (x : List Char) {c : Char}
    (hx : x ∈ promptParts cfg) (hc : c ∈ x) : c ∈ buildOCRPrompt cfg :=
  List.mem_flatten_of_mem hx hc

theorem infix_ite {n a b : List Char} {c : Bool} (ha : n <:+: a) (hb : n <:+: b) :
    n <:+: (if c then a else b) := by
  cases c <;> simpa

/-- C9: for every combination of the five feature flags, the prompt built by
`BuildOCRPrompt` contains both brace anchors and the literal JSON-schema field
names (each quoted, as they appear in the schema skeleton); the builder itself
is a total function of the flag configuration. -/
theorem buildOCRPrompt_contains_anchors_and_fields (cfg : PromptConfig) :
    '\x7b' ∈ buildOCRPrompt cfg ∧ '\x7d' ∈ buildOCRPrompt cfg ∧
    ("\"metadata\"").data <:+: buildOCRPrompt cfg ∧
    ("\"language\"").data <:+: buildOCRPrompt cfg ∧
    ("\"document_type\"").data <:+: buildOCRPrompt cfg ∧
    ("\"confidence_score\"").data <:+: buildOCRPrompt cfg ∧
    ("\"text\"").data <:+: buildOCRPrompt cfg ∧
    ("\"raw\"").data <:+: buildOCRPrompt cfg ∧
    ("\"lines\"").data <:+: buildOCRPrompt cfg ∧
    ("\"bounding_box\"").data <:+: buildOCRPrompt cfg ∧
    ("\"confidence\"").data <:+: buildOCRPrompt cfg ∧
    ("\"structured_data\"").data <:+: buildOCRPrompt cfg ∧
    ("\"key_value_pairs\"").data <:+: buildOCRPrompt cfg ∧
    ("\"tables\"").data <:+: buildOCRPrompt cfg ∧
    ("\"summary\"").data <:+: buildOCRPrompt cfg := by
  refine ⟨mem_of_part pHeader (by simp [promptParts]) (by decide),
    mem_of_part pHeader (by simp [promptParts]) (by decide),
    infix_of_part pHeader (by simp [promptParts]) (by decide),
    infix_of_part pHeader (by simp [promptParts]) (by decide),
    infix_of_part pTextSchema (by simp [promptParts]) (by decide),
    infix_of_part pTextSchema (by simp [promptParts]) (by decide),
    infix_of_part pTextSchema (by simp [promptParts]) (by decide),
    infix_of_part pTextSchema (by simp [promptParts]) (by decide),
    infix_of_part pTextSchema (by simp [promptParts]) (by decide),
    infix_of_part (if cfg.withBoundingBoxes then pBoxOn else pBoxOff)
      (by simp [promptParts]) (infix_ite (by decide) (by decide)),
    infix_of_part (if cfg.withConfidenceScores then pConfOn else pConfOff)
      (by simp [promptParts]) (infix_ite (by decide) (by decide)),
    infix_of_part (if cfg.withStructuredExtraction then pStructOn else pStructOff)
      (by simp [promptParts]) (infix_ite (by decide) (by decide)),
    infix_of_part (if cfg.withStructuredExtraction then pStructOn else pStructOff)
      (by simp [promptParts]) (infix_ite (by decide) (by decide)),
    infix_of_part (if cfg.withStructuredExtraction then pStructOn else pStructOff)
      (by simp [promptParts]) (infix_ite (by decide) (by decide)),
    infix_of_part (if cfg.withSummary then pSumOn else pSumOff)
      (by simp [promptParts]) (infix_ite (by decide) (by decide))⟩

/-! ## Merge lemmas -/

theorem goAppend_nil (o : Option (List Table)) : goAppend o [] = o := by
  cases o <;> simp [goAppend]

theorem goAppend_getD (o : Option (List Table)) (xs : List Table) :
    (goAppend o xs).getD [] = o.getD [] ++ xs := by
  cases o with
  | none =>
    by_cases h : xs.isEmpty
    · simp_all [goAppend, List.isEmpty_iff]
    · simp_all [goAppend]
  | some l => simp [goAppend]

theorem mergeStep_metadata (a : MergeAcc) (x : Nat × ProcessResult) :
    (mergeStep a x).metadata = a.metadata := by
  obtain ⟨i, ⟨⟨md, txt, sd, sm, img⟩, mdl, pt, et, lat⟩⟩ := x
  cases txt <;> cases sd <;> cases sm <;> rfl

theorem mergeStep_model (a : MergeAcc) (x : Nat × ProcessResult) :
    (mergeStep a x).model = a.model := by
  obtain ⟨i, ⟨⟨md, txt, sd, sm, img⟩, mdl, pt, et, lat⟩⟩ := x
  cases txt <;> cases sd <;> cases sm <;> rfl

theorem mergeStep_summary (a : MergeAcc) (x : Nat × ProcessResult) :
    (mergeStep a x).summary = (x.2.visionResponse.summary).or a.summary := by
  obtain ⟨i, ⟨⟨md, txt, sd, sm, img⟩, mdl, pt, et, lat⟩⟩ := x
  cases txt <;> cases sd <;> cases sm <;> rfl

theorem mergeStep_lines (a : MergeAcc) (x : Nat × ProcessResult) :
    (mergeStep a x).lines = a.lines ++ pageLines x.2 := by
  obtain ⟨i, ⟨⟨md, txt, sd, sm, img⟩, mdl, pt, et, lat⟩⟩ := x
  cases txt <;> cases sd <;> cases sm <;> simp [mergeStep, pageLines]

theorem mergeStep_tables (a : MergeAcc) (x : Nat × ProcessResult) :
    (mergeStep a x).tables = goAppend a.tables (pageTables x.2) := by
  obtain ⟨i, ⟨⟨md, txt, sd, sm, img⟩, mdl, pt, et, lat⟩⟩ := x
  cases txt <;> cases sd <;> cases sm <;> simp [mergeStep, pageTables, goAppend_nil]

theorem mergeStep_kvs (a : MergeAcc) (x : Nat × ProcessResult) :
    (mergeStep a x).kvs = (pageKVs x.2).foldl (fun m p => mapSet m p.1 p.2) a.kvs := by
  obtain ⟨i, ⟨⟨md, txt, sd, sm, img⟩, mdl, pt, et, lat⟩⟩ := x
  cases txt <;> cases sd <;> cases sm <;> rfl

theorem foldl_mergeStep_metadata (l : List (Nat × ProcessResult)) (a : MergeAcc) :
    (l.foldl mergeStep a).metadata = a.metadata := by
  induction l generalizing a with
  | nil => rfl
  | cons x t ih => rw [List.foldl_cons, ih, mergeStep_metadata]

theorem foldl_mergeStep_summary (l : List (Nat × ProcessResult)) (a : MergeAcc) :
    (l.foldl mergeStep a).summary =
      (l.reverse.findSome? (fun ir => ir.2.visionResponse.summary)).or a.summary := by
  induction l generalizing a with
  | nil => rfl
  | cons x t ih =>
    rw [List.foldl_cons, ih, mergeStep_summary, List.reverse_cons, List.findSome?_append,
      Option.or_assoc]
    congr 1
    cases h : x.2.visionResponse.summary <;> simp [List.findSome?, h]

theorem foldl_mergeStep_lines (l : List (Nat × ProcessResult)) (a : MergeAcc) :
    (l.foldl mergeStep a).lines = a.lines ++ (l.map (fun ir => pageLines ir.2)).flatten := by
  induction l generalizing a with
  | nil => simp
  | cons x t ih =>
    rw [List.foldl_cons, ih, mergeStep_lines]
    simp

theorem foldl_mergeStep_tables (l : List (Nat × ProcessResult)) (a : MergeAcc) :
    (l.foldl mergeStep a).tables.getD [] =
      a.tables.getD [] ++ (l.map (fun ir => pageTables ir.2)).flatten := by
  induction l generalizing a with
  | nil => simp
  | cons x t ih =>
    rw [List.foldl_cons, ih, mergeStep_tables, goAppend_getD]
    simp

theorem mapGet_mapSet (m : List (String × String)) (k' v k : String) :
    mapGet (mapSet m k' v) k = if k' = k then some v else mapGet m k := by
  induction m with
  | nil =>
    by_cases h : k' = k <;> simp [mapSet, mapGet, h]
  | cons p rest ih =>
    by_cases hp : p.1 = k'
    · by_cases hk : k' = k <;> simp [mapSet, mapGet, hp, hk]
    · by_cases hk : p.1 = k
      · have h1 : ¬ k' = k := fun h => hp (hk.trans h.symm)
        have h2 : ¬ k = k' := fun h => h1 h.symm
        simp [mapSet, mapGet, hp, hk, h1, h2]
      · simp [mapSet, mapGet, hp, hk, ih]

theorem mapGet_eq_none_of_not_mem (m : List (String × String)) (k : String)
    (h : k ∉ m.map (fun p => p.1)) : mapGet m k = none := by
  induction m with
  | nil => rfl
  | cons p rest ih =>
    simp only [List.map_cons, List.mem_cons] at h
    push_neg at h
    have h1 : ¬ p.1 = k := fun hh => h.1 hh.symm
    simp [mapGet, h1, ih h.2]

theorem mapGet_foldl_mapSet (entries : List (String × String))
    (m₀ : List (String × String)) (k : String) (hwf : mapWF entries) :
    mapGet (entries.foldl (fun m p => mapSet m p.1 p.2) m₀) k =
      (mapGet entries k).or (mapGet m₀ k) := by
  induction entries generalizing m₀ with
  | nil => simp [mapGet]
  | cons p rest ih =>
    have hsplit : p.1 ∉ rest.map (fun q => q.1) ∧ (rest.map (fun q => q.1)).Nodup := by
      have h := hwf
      simp only [mapWF, List.map_cons, List.nodup_cons] at h
      exact h
    rw [List.foldl_cons, ih _ hsplit.2]
    by_cases hk : p.1 = k
    · have hnot : k ∉ rest.map (fun q => q.1) := hk ▸ hsplit.1
      rw [mapGet_eq_none_of_not_mem rest k hnot]
      simp [mapGet, hk, mapGet_mapSet]
    · simp [mapGet, hk, mapGet_mapSet, Option.or_assoc]

theorem foldl_mergeStep_kvs (l : List (Nat × ProcessResult)) (a : MergeAcc) (k : String)
    (hwf : ∀ ir ∈ l, mapWF (pageKVs ir.2)) :
    mapGet (l.foldl mergeStep a).kvs k =
      (l.reverse.findSome? (fun ir => pageGet ir.2 k)).or (mapGet a.kvs k) := by
  induction l generalizing a with
  | nil => simp
  | cons x t ih =>
    rw [List.foldl_cons, ih _ (fun ir h => hwf ir (List.mem_cons_of_mem x h)),
      mergeStep_kvs, mapGet_foldl_mapSet _ _ _ (hwf x (List.mem_cons_self x t)),
      List.reverse_cons, List.findSome?_append, Option.or_assoc]
    congr 1
    cases h : mapGet (pageKVs x.2) k <;> simp [List.findSome?, pageGet, h]

theorem findSome?_reverse_enum {β : Type} (l : List ProcessResult)
    (f : ProcessResult → Option β) :
    (l.enum.reverse.findSome? (fun ir => f ir.2)) = l.reverse.findSome? f := by
  have h1 : l.enum.reverse.map Prod.snd = l.reverse := by
    rw [List.map_reverse, List.enum, List.enumFrom_map_snd]
  calc l.enum.reverse.findSome? (fun ir => f ir.2)
      = (l.enum.reverse.map Prod.snd).findSome? f := by
        rw [List.findSome?_map]; rfl
    _ = l.reverse.findSome? f := by rw [h1]

theorem map_enum_comp {β : Type} (l : List ProcessResult) (f : ProcessResult → β) :
    l.enum.map (fun ir => f ir.2) = l.map f := by
  have : l.enum.map (fun ir => f ir.2) = (l.enum.map Prod.snd).map f := by
    rw [List.map_map]; rfl
  rw [this, List.enum, List.enumFrom_map_snd]

/-- C6: merging a one-element list of page results is the identity: the merged
result is that element unchanged (`mergeResults` returns `results[0]`
directly, so token counts, latency, model name and structured content are
those of the single page). -/
theorem mergeResults_singleton_identity (r : ProcessResult) :
    mergeResults [r] = some r := rfl

/-- C4: for at least two pages, the merged result's document metadata is the
first page's metadata pointer verbatim (hence its language, document type and
confidence score), and the merged summary is the summary of the last page
whose summary is non-nil (`none` when `findSome?` over the reversed page list
finds nothing). -/
theorem mergeResults_first_metadata_last_summary (r₀ r₁ : ProcessResult)
    (rs : List ProcessResult) (m : ProcessResult)
    (hm : mergeResults (r₀ :: r₁ :: rs) = some m) :
    m.visionResponse.metadata = r₀.visionResponse.metadata ∧
    m.visionResponse.summary =
      (r₀ :: r₁ :: rs).reverse.findSome? (fun r => r.visionResponse.summary) := by
  have hm' : mergeAssemble (((r₀ :: r₁ :: rs).enum).foldl mergeStep (mergeAccInit r₀)) = m :=
    Option.some.inj (by simpa [mergeResults] using hm)
  subst hm'
  constructor
  · show (((r₀ :: r₁ :: rs).enum).foldl mergeStep (mergeAccInit r₀)).metadata = _
    rw [foldl_mergeStep_metadata]
    rfl
  · show (((r₀ :: r₁ :: rs).enum).foldl mergeStep (mergeAccInit r₀)).summary = _
    rw [foldl_mergeStep_summary]
    simp only [mergeAccInit, Option.or_none]
    exact findSome?_reverse_enum (r₀ :: r₁ :: rs) (fun r => r.visionResponse.summary)

/-- C5: for every page list (with the Go-map invariant that each page's
key-value mapping has distinct keys), the merged key-value mapping is the
last-write-wins union by page order, and the merged text lines and tables are
the concatenations of the pages' lines and tables in page order. -/
theorem mergeResults_kv_union_and_concat (results : List ProcessResult)
    (m : ProcessResult) (hwf : ∀ r ∈ results, mapWF (pageKVs r))
    (hm : mergeResults results = some m) :
    (∀ k, pageGet m k = results.reverse.findSome? (fun r => pageGet r k)) ∧
    pageLines m = (results.map pageLines).flatten ∧
    pageTables m = (results.map pageTables).flatten := by
  match results, hm with
  | [r], hm =>
    have hr : r = m := Option.some.inj (by simpa [mergeResults] using hm)
    subst hr
    refine ⟨fun k => ?_, by simp, by simp⟩
    cases h : pageGet r k <;> simp [List.findSome?, h]
  | r₀ :: r₁ :: rs, hm =>
    have hm' : mergeAssemble (((r₀ :: r₁ :: rs).enum).foldl mergeStep (mergeAccInit r₀)) = m :=
      Option.some.inj (by simpa [mergeResults] using hm)
    subst hm'
    refine ⟨fun k => ?_, ?_, ?_⟩
    · have hwf' : ∀ ir ∈ (r₀ :: r₁ :: rs).enum, mapWF (pageKVs ir.2) := by
        intro ir hir
        refine hwf ir.2 ?_
        have h2 := List.mem_map_of_mem Prod.snd hir
        rwa [List.enum, List.enumFrom_map_snd] at h2
      show mapGet (((r₀ :: r₁ :: rs).enum).foldl mergeStep (mergeAccInit r₀)).kvs k = _
      rw [foldl_mergeStep_kvs _ _ _ hwf']
      simp only [mergeAccInit, mapGet, Option.or_none]
      exact findSome?_reverse_enum (r₀ :: r₁ :: rs) (fun r => pageGet r k)
    · show (((r₀ :: r₁ :: rs).enum).foldl mergeStep (mergeAccInit r₀)).lines = _
      rw [foldl_mergeStep_lines, map_enum_comp]
      simp [mergeAccInit]
    · show (((r₀ :: r₁ :: rs).enum).foldl mergeStep (mergeAccInit r₀)).tables.getD [] = _
      rw [foldl_mergeStep_tables, map_enum_comp]
      simp [mergeAccInit]

/-- Witness for C4: two concrete pages where only the first has a summary;
the merged metadata is the first page's and the merged summary is the last
non-nil one. -/
theorem mergeResults_first_metadata_last_summary_witness :
    mergedAB.visionResponse.metadata = pageA.visionResponse.metadata ∧
    mergedAB.visionResponse.summary =
      [pageA, pageB].reverse.findSome? (fun r => r.visionResponse.summary) :=
  mergeResults_first_metadata_last_summary pageA pageB [] mergedAB (by decide)

/-- Witness for C5: the colliding key `k` resolves to the second page's value,
and lines/tables concatenate in page order. -/
theorem mergeResults_kv_union_and_concat_witness :
    pageGet mergedAB ("k") = [pageA, pageB].reverse.findSome? (fun r => pageGet r ("k")) ∧
    pageLines mergedAB = ([pageA, pageB].map pageLines).flatten ∧
    pageTables mergedAB = ([pageA, pageB].map pageTables).flatten ∧
    pageGet mergedAB ("k") = some ("b") :=
  have h := mergeResults_kv_union_and_concat [pageA, pageB] mergedAB (by decide) (by decide)
  ⟨h.1 ("k"), h.2.1, h.2.2, by decide⟩

/-! ## Engine retry policy -/

/-- C3: single-image extraction retry policy. A transport failure on the
first request fails immediately with `generateFailed 0` after exactly one
request. If the first reply fails to parse, exactly one additional request is
issued, identical to the first (the trace is the same request twice); a
transport failure there fails immediately with `generateFailed 1`, and a
second parse failure fails with `allAttemptsFailed` wrapping the attempt-1
parse error. -/
theorem engineProcess_retry_policy
    (gen : Nat → GenerateRequest → Except String GenerateResponse)
    (parse : List Char → Except String OllamaVisionResponse)
    (cfg : ProcessConfig) (img : String) (elapsed : Int) :
    (∀ e, gen 0 (engineRequest cfg img) = .error e →
      engineProcess gen parse cfg img elapsed =
        (.error (.generateFailed 0 e), [engineRequest cfg img])) ∧
    (∀ r₀ pe₀, gen 0 (engineRequest cfg img) = .ok r₀ →
      parse r₀.response = .error pe₀ →
      ((engineProcess gen parse cfg img elapsed).2 =
          [engineRequest cfg img, engineRequest cfg img] ∧
        (∀ e₁, gen 1 (engineRequest cfg img) = .error e₁ →
          (engineProcess gen parse cfg img elapsed).1 = .error (.generateFailed 1 e₁)) ∧
        (∀ r₁ pe₁, gen 1 (engineRequest cfg img) = .ok r₁ →
          parse r₁.response = .error pe₁ →
          (engineProcess gen parse cfg img elapsed).1 =
            .error (.allAttemptsFailed (some (1, pe₁)))))) := by
  refine ⟨?_, ?_⟩
  · intro e h0
    simp [engineProcess, runAttempts, h0]
  · intro r₀ pe₀ h0 hp0
    refine ⟨?_, ?_, ?_⟩
    · cases h1 : gen 1 (engineRequest cfg img) with
      | error e => simp [engineProcess, runAttempts, h0, hp0, h1]
      | ok r₁ =>
        cases hp1 : parse r₁.response <;>
          simp [engineProcess, runAttempts, h0, hp0, h1, hp1]
    · intro e₁ h1
      simp [engineProcess, runAttempts, h0, hp0, h1]
    · intro r₁ pe₁ h1 hp1
      simp [engineProcess, runAttempts, h0, hp0, h1, hp1]

/-- Witness for C3: an engine run whose replies never parse issues exactly two
identical requests and fails with `allAttemptsFailed` wrapping the attempt-1
parse error. -/
theorem engineProcess_retry_policy_witness :
    (engineProcess genW parseW procCfgW ("img64") 0).2 =
      [engineRequest procCfgW ("img64"), engineRequest procCfgW ("img64")] ∧
    (engineProcess genW parseW procCfgW ("img64") 0).1 =
      .error (.allAttemptsFailed (some (1, "json unmarshal"))) :=
  have h := (engineProcess_retry_policy genW parseW procCfgW ("img64") 0).2
    respW "json unmarshal" (by rfl) (by rfl)
  ⟨h.1, h.2.2 respW "json unmarshal" (by rfl) (by rfl)⟩

/-! ## Clean-step characterization -/

theorem goIndexChar_cons (x : Char) (xs : List Char) (c : Char) :
    goIndexChar (x :: xs) c =
      if x = c then some 0 else (goIndexChar xs c).map (fun n => n + 1) := by
  rw [goIndexChar, List.findIdx?_cons]
  by_cases h : x = c
  · simp [h]
  · rw [if_neg (by simp [h]), if_neg h, List.findIdx?_succ]
    rfl

theorem goIndexChar_eq_none_iff {s : List Char} {c : Char} :
    goIndexChar s c = none ↔ c ∉ s := by
  rw [goIndexChar, List.findIdx?_eq_none_iff]
  constructor
  · intro h hc
    simpa using h c hc
  · intro h x hx
    simp only [decide_eq_false_iff_not]
    exact fun hxc => h (hxc ▸ hx)

theorem goIndexChar_eq_some_iff {s : List Char} {c : Char} {i : Nat} :
    goIndexChar s c = some i ↔ s[i]? = some c ∧ ∀ k, k < i → s[k]? ≠ some c := by
  induction s generalizing i with
  | nil => simp [goIndexChar]
  | cons x xs ih =>
    rw [goIndexChar_cons]
    by_cases hx : x = c
    · rw [if_pos hx]
      cases i with
      | zero => simp [hx]
      | succ n =>
        simp only [Option.some_inj]
        constructor
        · intro h
          exact absurd h (by simp)
        · rintro ⟨hget, hall⟩
          exact absurd (show ((x :: xs)[0]? = some c) by simp [hx]) (hall 0 (Nat.succ_pos n))
    · rw [if_neg hx]
      cases i with
      | zero =>
        simp only [Option.map_eq_some']
        constructor
        · rintro ⟨a, _, hcontra⟩
          exact absurd hcontra (by simp)
        · rintro ⟨hget, _⟩
          exact absurd (Option.some_inj.mp (by simpa using hget)) hx
      | succ n =>
        rw [Option.map_eq_some']
        constructor
        · rintro ⟨a, ha, han⟩
          have han2 : a + 1 = n + 1 := by simpa using han
          have hna : n = a := by omega
          subst hna
          obtain ⟨hget, hall⟩ := ih.mp ha
          refine ⟨by simpa using hget, ?_⟩
          intro k hk
          cases k with
          | zero => simp [hx]
          | succ m =>
            have : m < n := by omega
            simpa using hall m this
        · rintro ⟨hget, hall⟩
          refine ⟨n, ih.mpr ⟨by simpa using hget, ?_⟩, rfl⟩
          intro m hm
          have := hall (m + 1) (by omega)
          simpa using this

theorem goLastIndexChar_eq_none_iff {s : List Char} {c : Char} :
    goLastIndexChar s c = none ↔ c ∉ s := by
  rw [goLastIndexChar]
  cases h : goIndexChar s.reverse c with
  | none =>
    have h1 := goIndexChar_eq_none_iff.mp h
    simp only [true_iff]
    simpa using h1
  | some i =>
    have hmem : c ∈ s := by
      obtain ⟨hget, -⟩ := goIndexChar_eq_some_iff.mp h
      have h2 := List.getElem?_mem hget
      simpa using h2
    simp [hmem]

theorem goLastIndexChar_eq_some_iff {s : List Char} {c : Char} {j : Nat} :
    goLastIndexChar s c = some j ↔ s[j]? = some c ∧ ∀ k, j < k → s[k]? ≠ some c := by
  constructor
  · intro h
    rw [goLastIndexChar] at h
    cases hrev : goIndexChar s.reverse c with
    | none => rw [hrev] at h; exact absurd h (by simp)
    | some i =>
      rw [hrev] at h
      obtain ⟨hget, hfirst⟩ := goIndexChar_eq_some_iff.mp hrev
      have hi : i < s.length := by
        have h2 := hget
        rw [List.getElem?_eq_some_iff] at h2
        obtain ⟨hlt, -⟩ := h2
        simpa using hlt
      have hj : j = s.length - 1 - i := (Option.some_inj.mp h).symm
      subst hj
      refine ⟨?_, ?_⟩
      · have h3 : s.reverse[i]? = s[s.length - 1 - i]? := List.getElem?_reverse hi
        rw [← h3, hget]
      · intro k hk
        rcases Nat.lt_or_ge k s.length with hks | hks
        · have heq : s.reverse[s.length - 1 - k]? = s[k]? := by
            have h4 : s.reverse[s.length - 1 - k]? = s[s.length - 1 - (s.length - 1 - k)]? :=
              List.getElem?_reverse (by omega)
            rw [h4]
            congr 1
            omega
          rw [← heq]
          exact hfirst (s.length - 1 - k) (by omega)
        · rw [List.getElem?_eq_none hks]
          simp
  · rintro ⟨hget, hlast⟩
    have hj : j < s.length := by
      have h2 := hget
      rw [List.getElem?_eq_some_iff] at h2
      obtain ⟨hlt, -⟩ := h2
      exact hlt
    rw [goLastIndexChar]
    have hrev : goIndexChar s.reverse c = some (s.length - 1 - j) := by
      rw [goIndexChar_eq_some_iff]
      refine ⟨?_, ?_⟩
      · have h3 : s.reverse[s.length - 1 - j]? = s[s.length - 1 - (s.length - 1 - j)]? :=
          List.getElem?_reverse (by omega)
        rw [h3, show s.length - 1 - (s.length - 1 - j) = j by omega, hget]
      · intro k hk
        have hk' : k < s.length := by omega
        have h3 : s.reverse[k]? = s[s.length - 1 - k]? := List.getElem?_reverse hk'
        rw [h3]
        exact hlast (s.length - 1 - k) (by omega)
    rw [hrev]
    show some (s.length - 1 - (s.length - 1 - j)) = some j
    have hfix : s.length - 1 - (s.length - 1 - j) = j := by omega
    rw [hfix]

/-- C10: the clean step is total (it is a function returning a string for
every input) and, writing `preClean raw` for the trimmed, fence-stripped
string: when that string has no `\x7b`, or no `\x7d`, or its last `\x7d` does
not occur strictly after its first `\x7b`, it is returned unchanged; the
brace substring (first `\x7b` through last `\x7d`) is extracted exactly when
the first `\x7b` strictly precedes the last `\x7d`. -/
theorem cleanJSONResponse_clean_behavior (raw : List Char) :
    (('\x7b' ∉ preClean raw ∨ '\x7d' ∉ preClean raw) →
      cleanJSONResponse raw = preClean raw) ∧
    (∀ i j, (preClean raw)[i]? = some '\x7b' →
      (∀ k, k < i → (preClean raw)[k]? ≠ some '\x7b') →
      (preClean raw)[j]? = some '\x7d' →
      (∀ k, j < k → (preClean raw)[k]? ≠ some '\x7d') →
      ((j ≤ i → cleanJSONResponse raw = preClean raw) ∧
        (i < j → cleanJSONResponse raw = ((preClean raw).drop i).take (j + 1 - i)))) := by
  constructor
  · rintro (h | h)
    · have h1 : goIndexChar (preClean raw) '\x7b' = none := goIndexChar_eq_none_iff.mpr h
      simp [cleanJSONResponse, h1]
    · have h2 : goLastIndexChar (preClean raw) '\x7d' = none := goLastIndexChar_eq_none_iff.mpr h
      cases h1 : goIndexChar (preClean raw) '\x7b' <;> simp [cleanJSONResponse, h1, h2]
  · intro i j hi hifirst hj hjlast
    have h1 : goIndexChar (preClean raw) '\x7b' = some i :=
      goIndexChar_eq_some_iff.mpr ⟨hi, hifirst⟩
    have h2 : goLastIndexChar (preClean raw) '\x7d' = some j :=
      goLastIndexChar_eq_some_iff.mpr ⟨hj, hjlast⟩
    constructor
    · intro hle
      simp [cleanJSONResponse, h1, h2, Nat.not_lt.mpr hle]
    · intro hlt
      simp [cleanJSONResponse, h1, h2, hlt]

/-- Witness for C10: on `a\x7bb\x7dc` the first `\x7b` (index 1) strictly
precedes the last `\x7d` (index 3), so the clean step extracts exactly the
brace substring. -/
theorem cleanJSONResponse_clean_behavior_witness :
    cleanJSONResponse ("a\x7bb\x7dc").data =
      ((preClean ("a\x7bb\x7dc").data).drop 1).take 3 ∧
    cleanJSONResponse ("a\x7bb\x7dc").data = ("\x7bb\x7d").data :=
  have hlen : (preClean ("a\x7bb\x7dc").data).length = 5 := by decide
  have h := (cleanJSONResponse_clean_behavior ("a\x7bb\x7dc").data).2 1 3
    (by decide)
    (by
      intro k hk
      have hk0 : k = 0 := by omega
      subst hk0
      decide)
    (by decide)
    (by
      intro k hk
      rcases Nat.lt_or_ge k 5 with h5 | h5
      · have hk4 : k = 4 := by omega
        subst hk4
        decide
      · rw [List.getElem?_eq_none (by omega)]
        simp)
  ⟨(h.2 (by omega)), by decide⟩

/-! ## Whitespace-trim lemmas and the fence round-trip -/

theorem dropWhile_self (p : Char → Bool) (l : List Char) :
    (l.dropWhile p).dropWhile p = l.dropWhile p := by
  induction l with
  | nil => rfl
  | cons a t ih =>
    by_cases h : p a = true
    · simp [List.dropWhile_cons, h, ih]
    · simp [List.dropWhile_cons, h]

theorem dropWhile_cons_false {p : Char → Bool} {l u : List Char} {a : Char}
    (h : l.dropWhile p = a :: u) : p a = false := by
  induction l with
  | nil => simp at h
  | cons b t ih =>
    by_cases hb : p b = true
    · rw [List.dropWhile_cons, if_pos hb] at h
      exact ih h
    · rw [List.dropWhile_cons, if_neg hb] at h
      cases h
      simpa using hb

theorem trimRight_trimRight (s : List Char) :
    trimRightSpace (trimRightSpace s) = trimRightSpace s := by
  simp [trimRightSpace, dropWhile_self]

theorem trimLeft_trimRight_trimLeft (s : List Char) :
    trimLeftSpace (trimRightSpace (trimLeftSpace s)) = trimRightSpace (trimLeftSpace s) := by
  cases hu : trimLeftSpace s with
  | nil => rfl
  | cons a u =>
    have hpa : goIsSpace a = false :=
      dropWhile_cons_false (by simpa [trimLeftSpace] using hu)
    rw [trimRightSpace, show (a :: u).reverse = u.reverse ++ [a] by simp,
      List.dropWhile_append]
    by_cases he : (u.reverse.dropWhile goIsSpace).isEmpty
    · rw [if_pos he]
      simp [List.dropWhile_cons, hpa, trimLeftSpace]
    · rw [if_neg he]
      simp [trimLeftSpace, List.dropWhile_cons, hpa]

theorem goTrimSpace_idem (s : List Char) : goTrimSpace (goTrimSpace s) = goTrimSpace s := by
  simp only [goTrimSpace]
  rw [trimLeft_trimRight_trimLeft, trimRight_trimRight]

theorem goTrimSpace_cons_space {c : Char} (h : goIsSpace c = true) (l : List Char) :
    goTrimSpace (c :: l) = goTrimSpace l := by
  simp [goTrimSpace, trimLeftSpace, List.dropWhile_cons, h]

theorem trimRight_concat_space {c : Char} (h : goIsSpace c = true) (l : List Char) :
    trimRightSpace (l ++ [c]) = trimRightSpace l := by
  simp [trimRightSpace, List.dropWhile_cons, h]

theorem goTrimSpace_concat_space {c : Char} (h : goIsSpace c = true) (l : List Char) :
    goTrimSpace (l ++ [c]) = goTrimSpace l := by
  simp only [goTrimSpace, trimLeftSpace]
  rw [List.dropWhile_append]
  by_cases he : (l.dropWhile goIsSpace).isEmpty
  · rw [if_pos he]
    have h1 : List.dropWhile goIsSpace [c] = [] := by simp [List.dropWhile_cons, h]
    have h2 : List.dropWhile goIsSpace l = [] := by
      simpa [List.isEmpty_iff] using he
    rw [h1, h2]
  · rw [if_neg he]
    exact trimRight_concat_space h _

theorem dropWhile_append_of_ne {p : Char → Bool} {A : List Char} (B : List Char)
    (h : A.dropWhile p = A) (hne : A ≠ []) :
    (A ++ B).dropWhile p = A ++ B := by
  rw [List.dropWhile_append, h]
  have hie : A.isEmpty = false := by
    cases A with
    | nil => exact absurd rfl hne
    | cons x xs => rfl
  simp [hie]

theorem hasPre_fence_of_json {s : List Char} (h : goHasPre fenceMarkerJson s = true) :
    goHasPre fenceMarker s = true := by
  rw [goHasPre, List.isPrefixOf_iff_prefix] at h ⊢
  exact List.IsPrefix.trans (by decide) h

theorem trim_wrap (r : List Char) : goTrimSpace (wrapJsonFence r) = wrapJsonFence r := by
  have hw : wrapJsonFence r = ("```json\n").data ++ (r ++ ("\n```").data) := by
    rw [wrapJsonFence, List.append_assoc]
  have htl : trimLeftSpace (wrapJsonFence r) = wrapJsonFence r := by
    rw [trimLeftSpace, hw, dropWhile_append_of_ne _ (by decide) (by decide), ← hw]
  rw [goTrimSpace, htl, trimRightSpace]
  have hrev : (wrapJsonFence r).reverse
      = ("\n```").data.reverse ++ (r.reverse ++ ("```json\n").data.reverse) := by
    rw [hw]
    simp [List.reverse_append]
  rw [hrev, dropWhile_append_of_ne _ (by decide) (by decide), ← hrev, List.reverse_reverse]

theorem preClean_wrap (r : List Char) : preClean (wrapJsonFence r) = goTrimSpace r := by
  have hpre : goHasPre fenceMarkerJson (wrapJsonFence r) = true := by
    rw [goHasPre, List.isPrefixOf_iff_prefix]
    refine ⟨("\n").data ++ (r ++ ("\n```").data), ?_⟩
    rw [wrapJsonFence, show ("```json\n").data = fenceMarkerJson ++ ("\n").data from by decide]
    simp [List.append_assoc]
  have hdrop : goTrimPre fenceMarkerJson (wrapJsonFence r)
      = ("\n").data ++ (r ++ ("\n```").data) := by
    rw [goTrimPre, if_pos hpre, wrapJsonFence,
      show ("```json\n").data = fenceMarkerJson ++ ("\n").data from by decide,
      List.append_assoc, List.append_assoc]
    exact List.drop_left fenceMarkerJson _
  have hassoc : ("\n").data ++ (r ++ ("\n```").data)
      = (("\n").data ++ (r ++ ("\n").data)) ++ fenceMarker := by
    rw [show ("\n```").data = ("\n").data ++ fenceMarker from by decide]
    simp [List.append_assoc]
  have hsuf : goHasSuf fenceMarker (("\n").data ++ (r ++ ("\n```").data)) = true := by
    rw [goHasSuf, List.isSuffixOf_iff_suffix, hassoc]
    exact ⟨_, rfl⟩
  have htake : goTrimSuf fenceMarker (("\n").data ++ (r ++ ("\n```").data))
      = ("\n").data ++ (r ++ ("\n").data) := by
    rw [goTrimSuf, if_pos hsuf, hassoc]
    refine List.take_left' ?_
    simp
    omega
  simp only [preClean, trim_wrap, hpre, if_true, hdrop, htake]
  rw [show ("\n").data ++ (r ++ ("\n").data) = '\n' :: (r ++ ['\n']) from by
      rw [show ("\n").data = ['\n'] from by decide]
      rfl]
  rw [goTrimSpace_cons_space (by decide), goTrimSpace_concat_space (by decide)]

theorem preClean_nofence (r : List Char)
    (hpre : goHasPre fenceMarker (goTrimSpace r) = false)
    (hsuf : goHasSuf fenceMarker (goTrimSpace r) = false) :
    preClean r = goTrimSpace r := by
  have hprej : goHasPre fenceMarkerJson (goTrimSpace r) = false := by
    cases h : goHasPre fenceMarkerJson (goTrimSpace r)
    · rfl
    · rw [hasPre_fence_of_json h] at hpre
      exact absurd hpre (by simp)
  simp only [preClean, hprej, hpre, Bool.false_eq_true, if_false]
  rw [goTrimSuf, if_neg (by simp [hsuf])]
  exact goTrimSpace_idem r

theorem cleanJSONResponse_congr {a b : List Char} (h : preClean a = preClean b) :
    cleanJSONResponse a = cleanJSONResponse b := by
  simp only [cleanJSONResponse, h]

/-- C8 (amended): wrapping a reply in a markdown JSON code fence leaves the
cleaned output byte-identical, provided the trimmed reply does not itself
start or end with a fence marker (without that proviso the claim fails, see
the counterexample). -/
theorem cleanJSONResponse_fence_roundtrip (r : List Char)
    (hpre : goHasPre fenceMarker (goTrimSpace r) = false)
    (hsuf : goHasSuf fenceMarker (goTrimSpace r) = false) :
    cleanJSONResponse (wrapJsonFence r) = cleanJSONResponse r :=
  cleanJSONResponse_congr ((preClean_wrap r).trans (preClean_nofence r hpre hsuf).symm)

/-- C8 counterexample: for the reply consisting of a bare fence marker,
cleaning the fence-wrapped reply and cleaning the bare reply give different
strings, so the round-trip does not hold for every reply. -/
theorem cleanJSONResponse_fence_roundtrip_counterexample :
    cleanJSONResponse (wrapJsonFence ("```").data) ≠ cleanJSONResponse ("```").data := by
  decide

/-- Witness for C8: the round-trip on a well-behaved JSON reply. -/
theorem cleanJSONResponse_fence_roundtrip_witness :
    cleanJSONResponse (wrapJsonFence ("\x7b\"key\": \"value\"\x7d").data)
      = cleanJSONResponse ("\x7b\"key\": \"value\"\x7d").data :=
  cleanJSONResponse_fence_roundtrip _ (by decide) (by decide)

/-! ## Result assembly: projections through the image override -/

theorem buildOCRResult_summary (s st ck : String) (ii : ImageInfo)
    (res : ProcessResult) (cfg : Config) :
    (buildOCRResult s st ck ii res cfg).summary = buildSummary res.visionResponse cfg := by
  obtain ⟨⟨md, txt, sd, sm, img⟩, mdl, pt, et, lat⟩ := res
  cases img <;> rfl

theorem buildOCRResult_text (s st ck : String) (ii : ImageInfo)
    (res : ProcessResult) (cfg : Config) :
    (buildOCRResult s st ck ii res cfg).text = buildText res.visionResponse cfg := by
  obtain ⟨⟨md, txt, sd, sm, img⟩, mdl, pt, et, lat⟩ := res
  cases img <;> rfl

theorem buildOCRResult_structuredData (s st ck : String) (ii : ImageInfo)
    (res : ProcessResult) (cfg : Config) :
    (buildOCRResult s st ck ii res cfg).structuredData
      = buildStructuredData res.visionResponse cfg := by
  obtain ⟨⟨md, txt, sd, sm, img⟩, mdl, pt, et, lat⟩ := res
  cases img <;> rfl

theorem buildOCRResult_metadata (s st ck : String) (ii : ImageInfo)
    (res : ProcessResult) (cfg : Config) :
    (buildOCRResult s st ck ii res cfg).metadata = buildMetadata res.visionResponse := by
  obtain ⟨⟨md, txt, sd, sm, img⟩, mdl, pt, et, lat⟩ := res
  cases img <;> rfl

theorem buildOCRResult_colorMode (s st ck : String) (ii : ImageInfo)
    (res : ProcessResult) (cfg : Config) :
    (buildOCRResult s st ck ii res cfg).image.colorMode =
      match res.visionResponse.image with
      | none => ii.colorMode
      | some vi =>
        if vi.colorMode ≠ "" then
          if ValidColorModes.contains vi.colorMode then vi.colorMode else ii.colorMode
        else ii.colorMode := by
  obtain ⟨⟨md, txt, sd, sm, img⟩, mdl, pt, et, lat⟩ := res
  cases img with
  | none => rfl
  | some vi =>
    obtain ⟨w, hgt, dpi, cm⟩ := vi
    simp only [buildOCRResult]
    cases dpi <;> split_ifs <;> rfl

/-! ## Feature-flag masking (C1) -/

/-- C1 counterexample: with language detection disabled and the model
supplying a language, the assembled result's language field is the model's
value, not null — `buildMetadata` takes no configuration and never masks
language. -/
theorem flag_masking_language_counterexample :
    cfgAllOff.withLanguageDetection = false ∧
    (buildOCRResult ("src.png") ("file") ("cks") imgInfoW procResFull cfgAllOff).metadata.language
      = some "en" :=
  ⟨rfl, rfl⟩

/-- C1 (amended): the final-result masking holds for four of the five flags —
summary nil when the summary flag is off, per-line confidence `0` when the
confidence flag is off, bounding boxes nil when the bounding-box flag is off,
key-value pairs and tables empty when structured extraction is off — but the
language field is not masked: it is copied verbatim from the model's metadata
regardless of the language-detection flag. -/
theorem buildOCRResult_flag_masking (s st ck : String) (ii : ImageInfo)
    (res : ProcessResult) (cfg : Config) :
    (cfg.withSummary = false →
      (buildOCRResult s st ck ii res cfg).summary = none) ∧
    (cfg.withConfidenceScores = false →
      ∀ l ∈ (buildOCRResult s st ck ii res cfg).text.lines, l.confidence = 0) ∧
    (cfg.withBoundingBoxes = false →
      ∀ l ∈ (buildOCRResult s st ck ii res cfg).text.lines, l.boundingBox = none) ∧
    (cfg.withStructuredExtraction = false →
      (buildOCRResult s st ck ii res cfg).structuredData
        = { keyValuePairs := some [], tables := some [] }) ∧
    ((buildOCRResult s st ck ii res cfg).metadata.language =
      match res.visionResponse.metadata with
      | none => none
      | some m => m.language) := by
  refine ⟨?_, ?_, ?_, ?_, ?_⟩
  · intro h
    rw [buildOCRResult_summary]
    simp [buildSummary, h]
  · intro h l hl
    rw [buildOCRResult_text] at hl
    rw [buildText] at hl
    cases htxt : res.visionResponse.text with
    | none => rw [htxt] at hl; simp at hl
    | some t =>
      rw [htxt] at hl
      simp only [List.mem_map] at hl
      obtain ⟨line, -, rfl⟩ := hl
      simp [h]
  · intro h l hl
    rw [buildOCRResult_text] at hl
    rw [buildText] at hl
    cases htxt : res.visionResponse.text with
    | none => rw [htxt] at hl; simp at hl
    | some t =>
      rw [htxt] at hl
      simp only [List.mem_map] at hl
      obtain ⟨line, -, rfl⟩ := hl
      simp [h]
  · intro h
    rw [buildOCRResult_structuredData]
    simp [buildStructuredData, h]
  · rw [buildOCRResult_metadata, buildMetadata]
    cases res.visionResponse.metadata <;> rfl

/-- Witness for C1 (amended) at an all-flags-off configuration and a response
supplying every field: summary, structured data, confidence and bounding box
are masked, the language is not. -/
theorem buildOCRResult_flag_masking_witness :
    (buildOCRResult ("src.png") ("file") ("cks") imgInfoW procResFull cfgAllOff).summary = none ∧
    (buildOCRResult ("src.png") ("file") ("cks") imgInfoW procResFull cfgAllOff).structuredData
      = { keyValuePairs := some [], tables := some [] } ∧
    (buildOCRResult ("src.png") ("file") ("cks") imgInfoW procResFull cfgAllOff).metadata.language
      = some "en" ∧
    (buildOCRResult ("src.png") ("file") ("cks") imgInfoW procResFull cfgAllOff).text.lines
      = [{ text := "t", boundingBox := none, confidence := 0 }] :=
  have h := buildOCRResult_flag_masking ("src.png") ("file") ("cks") imgInfoW procResFull cfgAllOff
  ⟨h.1 rfl, h.2.2.2.1 rfl, h.2.2.2.2, by decide⟩

/-! ## Confidence ranges (C2) -/

theorem validateLines_ok_bounds (ls : List TextLine) (h : validateLines ls = .ok ()) :
    ∀ l ∈ ls, 0 ≤ l.confidence ∧ l.confidence ≤ 1 := by
  induction ls with
  | nil => simp
  | cons x t ih =>
    rw [validateLines] at h
    by_cases h1 : x.text = ""
    · rw [if_pos h1] at h
      exact absurd h (by simp)
    · rw [if_neg h1] at h
      by_cases h2 : x.confidence < 0 ∨ x.confidence > 1
      · rw [if_pos h2] at h
        exact absurd h (by simp)
      · rw [if_neg h2] at h
        intro l hl
        rcases List.mem_cons.mp hl with rfl | hl
        · push_neg at h2
          exact h2
        · exact ih h l hl

/-- C2 counterexample: a model response with document confidence 2 and line
confidence 3 yields (under an all-flags-on configuration) a returned result
whose confidences are 2 and 3, outside `[0,1]`; the validator rejects it but
`Extract` only logs the failure and returns the result anyway. -/
theorem confidence_range_counterexample :
    (buildOCRResult ("src.png") ("file") ("cks") imgInfoW procResBadConf cfgAllOn).metadata.confidenceScore
      = 2 ∧
    ¬ ((buildOCRResult ("src.png") ("file") ("cks") imgInfoW procResBadConf cfgAllOn).metadata.confidenceScore
      ≤ 1) ∧
    (buildOCRResult ("src.png") ("file") ("cks") imgInfoW procResBadConf cfgAllOn).text.lines
      = [{ text := "t", boundingBox := none, confidence := 3 }] ∧
    ValidateOCRResult
        (some (buildOCRResult ("src.png") ("file") ("cks") imgInfoW procResBadConf cfgAllOn))
      = .error ("confidence_score out of range [0, 1]") := by
  refine ⟨by decide, by decide, by decide, by rfl⟩

/-- C2 (amended): the strict validator accepts a result only when its
document confidence and every per-line confidence lie in `[0,1]`; the
assembled result itself copies the model's confidences verbatim, and `Extract`
returns it even when validation fails, so the range invariant holds exactly
for results that pass validation (the original universal claim fails, see the
counterexample). -/
theorem validate_ok_confidence_bounds (r : OCRResult)
    (h : ValidateOCRResult (some r) = .ok ()) :
    (0 ≤ r.metadata.confidenceScore ∧ r.metadata.confidenceScore ≤ 1) ∧
    ∀ l ∈ r.text.lines, 0 ≤ l.confidence ∧ l.confidence ≤ 1 := by
  rw [ValidateOCRResult] at h
  cases hv : validateLines r.text.lines with
  | error e =>
    rw [hv] at h
    split_ifs at h
  | ok u =>
    cases u
    rw [hv] at h
    split_ifs at h with h1 h2 h3 h4 h5 h6 h7 h8
    all_goals try simp at h
    refine ⟨?_, validateLines_ok_bounds _ hv⟩
    push_neg at h5
    exact h5

/-- Witness for C2 (amended): a concrete result accepted by the validator has
its confidence inside `[0,1]`. -/
theorem validate_ok_confidence_bounds_witness :
    0 ≤ okResultW.metadata.confidenceScore ∧ okResultW.metadata.confidenceScore ≤ 1 :=
  (validate_ok_confidence_bounds okResultW (by rfl)).1

/-! ## Schema invariants (C7) -/

theorem buildStructuredData_fields (resp : OllamaVisionResponse) (cfg : Config) :
    (buildStructuredData resp cfg).keyValuePairs ≠ none ∧
    (buildStructuredData resp cfg).tables ≠ none := by
  obtain ⟨md, txt, sd, sm, img⟩ := resp
  rw [buildStructuredData]
  by_cases h : cfg.withStructuredExtraction = true
  · rw [if_neg (by simp [h])]
    cases sd with
    | none => simp
    | some rsd =>
      obtain ⟨kv, tb⟩ := rsd
      cases kv <;> cases tb <;> simp
  · rw [if_pos (by simp [h])]
    simp

theorem buildMetadata_documentType_valid (resp : OllamaVisionResponse) :
    ValidDocumentTypes.contains (buildMetadata resp).documentType = true := by
  obtain ⟨md, txt, sd, sm, img⟩ := resp
  cases md with
  | none =>
    show ValidDocumentTypes.contains DocumentTypeUnknown = true
    decide
  | some m =>
    show ValidDocumentTypes.contains
      (if ValidDocumentTypes.contains m.documentType then m.documentType
       else DocumentTypeUnknown) = true
    by_cases h : ValidDocumentTypes.contains m.documentType = true
    · rw [if_pos h]
      exact h
    · rw [if_neg h]
      decide

theorem getImageInfo_colorMode_valid (decode : Except String DecodedConfig) (ext : List Char) :
    ValidColorModes.contains (getImageInfo decode ext).colorMode = true := by
  unfold getImageInfo
  split_ifs with hpdf
  · decide
  · cases decode with
    | error e =>
      show ValidColorModes.contains ColorModeUnknown = true
      decide
    | ok dcfg =>
      obtain ⟨w, hgt, cm⟩ := dcfg
      cases cm with
      | none =>
        show ValidColorModes.contains ColorModeUnknown = true
        decide
      | some p =>
        obtain ⟨b, nm⟩ := p
        cases b
        · show ValidColorModes.contains
            (if goContains nm.data (("RGBA").data) ∨ goContains nm.data (("NRGBA").data) then
              "RGB"
            else if goContains nm.data (("Gray").data) then "Grayscale"
            else if goContains nm.data (("CMYK").data) then "CMYK"
            else ColorModeUnknown) = true
          split_ifs <;> decide
        · show ValidColorModes.contains ("RGB") = true
          decide

/-- C7: for every model response and configuration, the assembled result has
non-nil key-value pairs and non-nil tables (empty rather than absent), a
document type from the five-value enum (defaulting to `unknown` when the
model's value is unrecognized), a color mode from the four-value enum, and a
model-supplied color mode outside the enum never overwrites the measured
one. -/
theorem buildOCRResult_schema_invariants (decode : Except String DecodedConfig)
    (ext : List Char) (s st ck : String) (res : ProcessResult) (cfg : Config) :
    (buildOCRResult s st ck (getImageInfo decode ext) res cfg).structuredData.keyValuePairs
      ≠ none ∧
    (buildOCRResult s st ck (getImageInfo decode ext) res cfg).structuredData.tables ≠ none ∧
    ValidDocumentTypes.contains
      (buildOCRResult s st ck (getImageInfo decode ext) res cfg).metadata.documentType = true ∧
    ValidColorModes.contains
      (buildOCRResult s st ck (getImageInfo decode ext) res cfg).image.colorMode = true ∧
    (∀ vi, res.visionResponse.image = some vi →
      ValidColorModes.contains vi.colorMode = false →
      (buildOCRResult s st ck (getImageInfo decode ext) res cfg).image.colorMode
        = (getImageInfo decode ext).colorMode) := by
  refine ⟨?_, ?_, ?_, ?_, ?_⟩
  · rw [buildOCRResult_structuredData]
    exact (buildStructuredData_fields _ _).1
  · rw [buildOCRResult_structuredData]
    exact (buildStructuredData_fields _ _).2
  · rw [buildOCRResult_metadata]
    exact buildMetadata_documentType_valid _
  · rw [buildOCRResult_colorMode]
    cases himg : res.visionResponse.image with
    | none => exact getImageInfo_colorMode_valid decode ext
    | some vi =>
      show ValidColorModes.contains
        (if vi.colorMode ≠ "" then
          if ValidColorModes.contains vi.colorMode then vi.colorMode
          else (getImageInfo decode ext).colorMode
        else (getImageInfo decode ext).colorMode) = true
      split_ifs with h1 h2
      · exact h2
      · exact getImageInfo_colorMode_valid decode ext
      · exact getImageInfo_colorMode_valid decode ext
  · intro vi hvi hbad
    rw [buildOCRResult_colorMode, hvi]
    show (if vi.colorMode ≠ "" then
        if ValidColorModes.contains vi.colorMode then vi.colorMode
        else (getImageInfo decode ext).colorMode
      else (getImageInfo decode ext).colorMode) = (getImageInfo decode ext).colorMode
    by_cases he : vi.colorMode ≠ ""
    · rw [if_pos he, if_neg (by rw [hbad]; exact Bool.false_ne_true)]
    · rw [if_neg he]

/-- Witness for C7: a decoded RGB image and a model asserting color mode
`WEIRD`: the unrecognized value does not overwrite the measured RGB. -/
theorem buildOCRResult_schema_invariants_witness :
    (buildOCRResult ("s.png") ("file") ("cks") (getImageInfo decodeW (".png").data)
        procResWithImage cfgAllOn).image.colorMode
      = (getImageInfo decodeW (".png").data).colorMode ∧
    (buildOCRResult ("s.png") ("file") ("cks") (getImageInfo decodeW (".png").data)
        procResWithImage cfgAllOn).image.colorMode = "RGB" :=
  ⟨(buildOCRResult_schema_invariants decodeW (".png").data ("s.png") ("file") ("cks")
      procResWithImage cfgAllOn).2.2.2.2 viW rfl (by decide),
    by decide⟩

end OcrProto
